import Mathlib

/-!
Verification of the semitile_core data-model and binary-codec library.

The definitions below are a shallow embedding of the Rust sources
`src/semitile_core/src/palette.rs`, `src/semitile_core/src/tile.rs` and
`src/semitile_core/src/tilemap.rs`.  Machine integers (`u8`, `u16`, `usize`)
are embedded as `Nat`; where an operation's behaviour depends on the machine
width, the corresponding bound (`< 256`, `< 65536`) appears as an explicit
hypothesis or as part of a well-formedness predicate.  Rust arrays and `Vec`s
become `List`s or functions out of `Fin`; fallible array indexing is embedded
with the `Option`-valued lookup `l[i]?`, so that a `none` in an internal
lookup models an out-of-bounds panic.  `Option`-returning Rust functions
return `Option` here as well.
-/

namespace Semitile

/-- Embeds `Color` (palette.rs): three 5-bit channels stored as `u8`.
The representation invariant `Color.wf` states the channels are in range. -/
structure Color where
  r : Nat
  g : Nat
  b : Nat
deriving DecidableEq, Repr

/-- Channels of a well-formed `Color` are 5-bit values, as every Rust
constructor guarantees. -/
def Color.wf (c : Color) : Prop := c.r < 32 ∧ c.g < 32 ∧ c.b < 32

instance : DecidablePred Color.wf := fun c => by unfold Color.wf; infer_instance

/-- Embeds `Color::new`: each channel clamped to 0-31 via `min`. -/
def Color.new (r g b : Nat) : Color := ⟨min r 31, min g 31, min b 31⟩

/-- Embeds `Color::to_rgb555`: `(r << 10) | (g << 5) | b`. -/
def Color.to_rgb555 (c : Color) : Nat := (c.r <<< 10) ||| (c.g <<< 5) ||| c.b

/-- Embeds `Color::from_rgb555`: extracts the three 5-bit fields by
shift-and-mask. -/
def Color.from_rgb555 (value : Nat) : Color :=
  ⟨(value >>> 10) &&& 0x1F, (value >>> 5) &&& 0x1F, value &&& 0x1F⟩

/-- Embeds `Color::to_rgb888`: bit-replication expansion
`(v << 3) | (v >> 2)` on each channel. -/
def Color.to_rgb888 (c : Color) : Nat × Nat × Nat :=
  ((c.r <<< 3) ||| (c.r >>> 2), (c.g <<< 3) ||| (c.g >>> 2), (c.b <<< 3) ||| (c.b >>> 2))

/-- Embeds `Color::from_rgb888`: discards the low 3 bits of each 8-bit
channel by shifting. -/
def Color.from_rgb888 (r g b : Nat) : Color := ⟨r >>> 3, g >>> 3, b >>> 3⟩

/-- Embeds `Color::default`: black. -/
def Color.defaultColor : Color := Color.new 0 0 0

/-- Embeds `Palette` (palette.rs): the Rust `[[Color; 16]; 16]` grid is
flattened row-major into a single list of 256 colors, cell `(p, c)` living at
flat index `p * 16 + c` — exactly the order in which `export_binary` and
`import_binary` traverse the grid. -/
structure Palette where
  colors : List Color
deriving DecidableEq, Repr

/-- Representation invariant of `Palette`: the grid always holds exactly
16 × 16 = 256 colors, each with in-range channels. -/
def Palette.wf (p : Palette) : Prop :=
  p.colors.length = 256 ∧ ∀ c ∈ p.colors, c.wf

instance : DecidablePred Palette.wf := fun p => by unfold Palette.wf; infer_instance

/-- Embeds `Palette::new`: all 256 colors black. -/
def Palette.new : Palette := ⟨List.replicate 256 Color.defaultColor⟩

/-- Embeds `Palette::get_color`: both indices wrapped modulo 16, then a grid
lookup.  The array access is embedded with the fallible `l[i]?`; a `none`
result models an out-of-bounds panic, shown unreachable for well-formed
palettes. -/
def Palette.get_color (p : Palette) (palette_idx color_idx : Nat) : Option Color :=
  p.colors[(palette_idx % 16) * 16 + color_idx % 16]?

/-- Embeds `Palette::set_color`: both indices wrapped modulo 16, then a grid
write (`List.set` is a no-op when the index is out of range, which C4 shows
cannot happen for well-formed palettes). -/
def Palette.set_color (p : Palette) (palette_idx color_idx : Nat) (color : Color) : Palette :=
  ⟨p.colors.set ((palette_idx % 16) * 16 + color_idx % 16) color⟩

/-- Little-endian serialization of a list of 16-bit words, two bytes per
word, low byte first — the loop body shared by `Palette::export_binary` and
`Tilemap::export_binary`. -/
def wordsToBytes : List Nat → List Nat
  | [] => []
  | w :: ws => (w &&& 0xFF) :: ((w >>> 8) &&& 0xFF) :: wordsToBytes ws

/-- Little-endian deserialization of byte pairs into 16-bit words,
`(high << 8) | low` — the loop body shared by `Palette::import_binary` and
`Tilemap::import_binary`.  Both callers check the byte length first, so the
input always has even length. -/
def bytesToWords : List Nat → List Nat
  | low :: high :: rest => ((high <<< 8) ||| low) :: bytesToWords rest
  | _ => []

/-- Embeds `Palette::export_binary`: 512 bytes, each color as a little-endian
packed-16 word, in flat grid order. -/
def Palette.export_binary (p : Palette) : List Nat :=
  wordsToBytes (p.colors.map Color.to_rgb555)

/-- Embeds `Palette::import_binary`: `None` unless the input is exactly
512 bytes, otherwise each byte pair is decoded with `from_rgb555` into the
flat grid. -/
def Palette.import_binary (data : List Nat) : Option Palette :=
  if data.length = 512 then some ⟨(bytesToWords data).map Color.from_rgb555⟩ else none

/-- Concrete 512-byte test buffer whose second byte has its top bit set —
bit 15 of the first 16-bit word, which `Color.from_rgb555` discards. -/
def c1_buf : List Nat := 0 :: 128 :: List.replicate 510 0

/-- Embeds `Tile` (tile.rs): the 8×8 pixel grid `pixels[y][x]` as a function
of the row index then the column index. -/
structure Tile where
  pixels : Fin 8 → Fin 8 → Nat

instance : DecidableEq Tile := fun a b =>
  if h : a.pixels = b.pixels then .isTrue (by cases a; cases b; cases h; rfl)
  else .isFalse (by intro hh; cases hh; exact h rfl)

/-- Representation invariant of `Tile`: every pixel holds a 4-bit color
index, as every Rust write path guarantees. -/
def Tile.wf (t : Tile) : Prop := ∀ y x, t.pixels y x < 16

instance : DecidablePred Tile.wf := fun t => by unfold Tile.wf; infer_instance

/-- Embeds `Tile::new`: all pixels 0. -/
def Tile.new : Tile := ⟨fun _ _ => 0⟩

/-- Embeds `Tile::set_pixel`: writes `pixels[y][x]` only when
`x < 8 && y < 8 && color < 16`, otherwise returns the tile unchanged. -/
def Tile.set_pixel (t : Tile) (x y : Nat) (color : Nat) : Tile :=
  if x < 8 ∧ y < 8 ∧ color < 16 then
    ⟨fun yy xx => if yy.val = y ∧ xx.val = x then color else t.pixels yy xx⟩
  else t

/-- Embeds `Tile::get_pixel`: returns `pixels[y][x]` in bounds, 0 otherwise. -/
def Tile.get_pixel (t : Tile) (x y : Nat) : Nat :=
  if h : x < 8 ∧ y < 8 then t.pixels ⟨y, h.2⟩ ⟨x, h.1⟩ else 0

/-- One row byte of one bit plane of `Tile::to_planar`: the source's
`for x` loop ORs `1 << (7 - x)` into the byte for every pixel of row `y`
whose color has the plane's bit (`color & mask != 0`) set. -/
def Tile.planeByte (t : Tile) (mask : Nat) (y : Fin 8) : Nat :=
  (List.finRange 8).foldl
    (fun acc x => if t.pixels y x &&& mask != 0 then acc ||| (1 <<< (7 - x.val)) else acc) 0

/-- Embeds `Tile::to_planar`: 32 bytes; bytes 0-7 are plane 0 (mask 0b0001)
rows 0-7, bytes 8-15 plane 1 (0b0010), bytes 16-23 plane 2 (0b0100),
bytes 24-31 plane 3 (0b1000). -/
def Tile.to_planar (t : Tile) : Fin 32 → Nat := fun i =>
  if h0 : i.val < 8 then t.planeByte 1 ⟨i.val, h0⟩
  else if h1 : i.val < 16 then t.planeByte 2 ⟨i.val - 8, by omega⟩
  else if h2 : i.val < 24 then t.planeByte 4 ⟨i.val - 16, by omega⟩
  else t.planeByte 8 ⟨i.val - 24, by omega⟩

/-- Embeds `Tile::from_planar`: pixel `(x, y)` gathers bit `7 - x` of the
four plane bytes `data[y]`, `data[8+y]`, `data[16+y]`, `data[24+y]` into a
4-bit color, ORing in 1, 2, 4, 8 exactly as the source does. -/
def Tile.from_planar (data : Fin 32 → Nat) : Tile :=
  ⟨fun y x =>
    (if data ⟨y.val, by omega⟩ &&& (1 <<< (7 - x.val)) != 0 then 1 else 0) |||
    (if data ⟨8 + y.val, by omega⟩ &&& (1 <<< (7 - x.val)) != 0 then 2 else 0) |||
    (if data ⟨16 + y.val, by omega⟩ &&& (1 <<< (7 - x.val)) != 0 then 4 else 0) |||
    (if data ⟨24 + y.val, by omega⟩ &&& (1 <<< (7 - x.val)) != 0 then 8 else 0)⟩

/-- Embeds `TilemapEntry` (tilemap.rs), the format of Revision A: 10-bit tile
index, 3-bit palette index, h/v flip and priority flags. -/
structure TilemapEntry where
  tile_index : Nat
  h_flip : Bool
  v_flip : Bool
  priority : Bool
  palette_idx : Nat
deriving DecidableEq, Repr

/-- Embeds `TilemapEntry::new`: tile index clamped to 1023, palette index
clamped to 7 via `min`. -/
def TilemapEntry.new (tile_index palette_idx : Nat) (h_flip v_flip priority : Bool) :
    TilemapEntry :=
  ⟨min tile_index 1023, h_flip, v_flip, priority, min palette_idx 7⟩

/-- Embeds `TilemapEntry::default`: all fields zero / false. -/
def TilemapEntry.defaultEntry : TilemapEntry := ⟨0, false, false, false, 0⟩

/-- Embeds `TilemapEntry::to_u16` (Revision A): bits 0-9 tile index,
bits 10-12 palette, bit 13 h-flip, bit 14 v-flip, bit 15 priority. -/
def TilemapEntry.to_u16 (e : TilemapEntry) : Nat :=
  (e.tile_index &&& 0x3FF) |||
  ((e.palette_idx &&& 0x7) <<< 10) |||
  (if e.h_flip then 1 <<< 13 else 0) |||
  (if e.v_flip then 1 <<< 14 else 0) |||
  (if e.priority then 1 <<< 15 else 0)

/-- Embeds `TilemapEntry::from_u16` (Revision A): field extraction by
shift-and-mask, flags by testing bits 13, 14, 15. -/
def TilemapEntry.from_u16 (value : Nat) : TilemapEntry :=
  ⟨value &&& 0x3FF,
   (value &&& (1 <<< 13)) != 0,
   (value &&& (1 <<< 14)) != 0,
   (value &&& (1 <<< 15)) != 0,
   (value >>> 10) &&& 0x7⟩

/-- Modelled from the spec: the Revision B `TilemapEntry` (spec sections 4.4,
6 and the design notes).  Its core implementation is not under `src/` — only
its caller, the binding layer in `src/web/src/lib.rs`, is (a four-argument
`TilemapEntry::new` without a priority flag, palette clamped to 15).  Fields:
10-bit tile index, h/v flip, 4-bit palette index; no priority bit. -/
structure TilemapEntryB where
  tile_index : Nat
  h_flip : Bool
  v_flip : Bool
  palette_idx : Nat
deriving DecidableEq, Repr

/-- Modelled from the spec: Revision B construction; tile index clamped to
1023 and palette index clamped to 15. -/
def TilemapEntryB.new (tile_index palette_idx : Nat) (h_flip v_flip : Bool) :
    TilemapEntryB :=
  ⟨min tile_index 1023, h_flip, v_flip, min palette_idx 15⟩

/-- Modelled from the spec: Revision B packed-16 layout — bits 0-9 tile
index, bit 10 h-flip, bit 11 v-flip, bits 12-15 palette index. -/
def TilemapEntryB.to_u16 (e : TilemapEntryB) : Nat :=
  (e.tile_index &&& 0x3FF) |||
  (if e.h_flip then 1 <<< 10 else 0) |||
  (if e.v_flip then 1 <<< 11 else 0) |||
  ((e.palette_idx &&& 0xF) <<< 12)

/-- Modelled from the spec: Revision B field extraction, inverse layout of
`TilemapEntryB.to_u16`. -/
def TilemapEntryB.from_u16 (value : Nat) : TilemapEntryB :=
  ⟨value &&& 0x3FF,
   (value &&& (1 <<< 10)) != 0,
   (value &&& (1 <<< 11)) != 0,
   (value >>> 12) &&& 0xF⟩

/-- Embeds `Tilemap` (tilemap.rs): dimensions plus the row-major entry
vector. -/
structure Tilemap where
  width : Nat
  height : Nat
  entries : List TilemapEntry
deriving DecidableEq, Repr

/-- Representation invariant of `Tilemap`: the entry vector length always
equals `width * height`, as every Rust constructor and mutator maintains. -/
def Tilemap.wf (m : Tilemap) : Prop := m.entries.length = m.width * m.height

instance : DecidablePred Tilemap.wf := fun m => by unfold Tilemap.wf; infer_instance

/-- Embeds Rust's `usize::clamp(1, 256)` on a tilemap dimension. -/
def clampDim (n : Nat) : Nat := min (max n 1) 256

/-- Embeds `Tilemap::new`: both dimensions clamped into [1, 256], the grid
filled with default entries. -/
def Tilemap.new (width height : Nat) : Tilemap :=
  ⟨clampDim width, clampDim height,
   List.replicate (clampDim width * clampDim height) TilemapEntry.defaultEntry⟩

/-- Embeds `Tilemap::get_entry`: `None` out of bounds, otherwise the entry at
row-major index `y * width + x`.  The in-bounds array access is embedded with
the fallible `l[i]?`, whose `none` models a panic — shown unreachable for
well-formed tilemaps. -/
def Tilemap.get_entry (m : Tilemap) (x y : Nat) : Option TilemapEntry :=
  if x < m.width ∧ y < m.height then m.entries[y * m.width + x]? else none

/-- Embeds `Tilemap::set_entry`: writes at row-major index `y * width + x`
in bounds, no-op otherwise. -/
def Tilemap.set_entry (m : Tilemap) (x y : Nat) (entry : TilemapEntry) : Tilemap :=
  if x < m.width ∧ y < m.height then
    ⟨m.width, m.height, m.entries.set (y * m.width + x) entry⟩
  else m

/-- Embeds `Tilemap::export_binary`: every entry as a little-endian
packed-16 word, in storage (row-major) order. -/
def Tilemap.export_binary (m : Tilemap) : List Nat :=
  wordsToBytes (m.entries.map TilemapEntry.to_u16)

/-- Embeds `Tilemap::import_binary`: dimensions clamped into [1, 256] first,
then `None` unless the byte length is exactly `width * height * 2` for the
clamped dimensions; otherwise each byte pair is decoded with `from_u16`. -/
def Tilemap.import_binary (data : List Nat) (width height : Nat) : Option Tilemap :=
  if data.length = clampDim width * clampDim height * 2 then
    some ⟨clampDim width, clampDim height, (bytesToWords data).map TilemapEntry.from_u16⟩
  else none

/-- Embeds `Tilemap::resize`: dimensions clamped into [1, 256]; no-op when
both clamped dimensions equal the current ones; otherwise a fresh
default-filled grid of the new size receives every entry whose coordinates
lie within both the old and the new bounds.  The source's double copy loop
(`for y in 0..min_height, for x in 0..min_width`) writes each destination
cell at most once, so the new grid is expressed cell-by-cell: destination
index `i` encodes `(x, y) = (i % new_width, i / new_width)`; the source read
`self.entries[y * width + x]` is embedded with `getD`, whose fallback is
unreachable for well-formed tilemaps since `x < width` and `y < height`. -/
def Tilemap.resize (m : Tilemap) (new_width new_height : Nat) : Tilemap :=
  let w := clampDim new_width
  let h := clampDim new_height
  if w = m.width ∧ h = m.height then m
  else
    ⟨w, h,
     (List.range (w * h)).map fun i =>
       if i % w < min m.width w ∧ i / w < min m.height h then
         m.entries.getD ((i / w) * m.width + i % w) TilemapEntry.defaultEntry
       else TilemapEntry.defaultEntry⟩

/-- Embeds `Tilemap::clear`: every entry back to the default. -/
def Tilemap.clear (m : Tilemap) : Tilemap :=
  ⟨m.width, m.height, m.entries.map fun _ => TilemapEntry.defaultEntry⟩

/-- Embeds `Tilemap::fill`: every entry replaced by the given one. -/
def Tilemap.fill (m : Tilemap) (entry : TilemapEntry) : Tilemap :=
  ⟨m.width, m.height, m.entries.map fun _ => entry⟩

/-! Generic lemmas about the bit-level operations used by the codecs. -/

/-- ORing a value below `2 ^ k` with a multiple of `2 ^ k` is addition. -/
theorem lor_eq_add (m a b : Nat) (hm : ∃ k, m = 2 ^ k) (ha : a < m) (hb : b % m = 0) :
    a ||| b = a + b := by
  obtain ⟨k, rfl⟩ := hm
  obtain ⟨c, rfl⟩ := Nat.dvd_of_mod_eq_zero hb
  rw [Nat.or_comm, ← Nat.mul_add_lt_is_or ha, Nat.add_comm]

/-- Symmetric version of `lor_eq_add`: multiple of `2 ^ k` on the left. -/
theorem lor_eq_add' (m a b : Nat) (hm : ∃ k, m = 2 ^ k) (ha : a % m = 0) (hb : b < m) :
    a ||| b = a + b := by
  rw [Nat.or_comm, lor_eq_add m b a hm hb ha, Nat.add_comm]

/-- Masking with an all-ones constant `m = 2 ^ k - 1` is reduction modulo
`m + 1`. -/
theorem and_mask (m M k x : Nat) (h1 : M = m + 1) (hM : M = 2 ^ k) : x &&& m = x % M := by
  have h := Nat.and_pow_two_sub_one_eq_mod x k
  have hm2 : 2 ^ k - 1 = m := by omega
  rw [hm2] at h
  rw [h, ← hM]

theorem and_1023 (x : Nat) : x &&& 1023 = x % 1024 := and_mask 1023 1024 10 x rfl (by norm_num)

theorem and_255 (x : Nat) : x &&& 255 = x % 256 := and_mask 255 256 8 x rfl (by norm_num)

theorem and_31 (x : Nat) : x &&& 31 = x % 32 := and_mask 31 32 5 x rfl (by norm_num)

theorem and_15 (x : Nat) : x &&& 15 = x % 16 := and_mask 15 16 4 x rfl (by norm_num)

theorem and_7 (x : Nat) : x &&& 7 = x % 8 := and_mask 7 8 3 x rfl (by norm_num)

theorem and_32767 (x : Nat) : x &&& 32767 = x % 32768 :=
  and_mask 32767 32768 15 x rfl (by norm_num)

/-- Testing a single-bit mask `m = 2 ^ k` reads the bit at position `k`. -/
theorem and_two_pow_ne (m k x : Nat) (hm : m = 2 ^ k) : (x &&& m ≠ 0) ↔ x / m % 2 = 1 := by
  subst hm
  rw [Nat.and_two_pow, Nat.toNat_testBit]
  have h2 := Nat.two_pow_pos k
  rcases Nat.mod_two_eq_zero_or_one (x / 2 ^ k) with h | h <;> simp [h]

theorem and_1024_ne (x : Nat) : (x &&& 1024 ≠ 0) ↔ x / 1024 % 2 = 1 :=
  and_two_pow_ne 1024 10 x (by norm_num)

theorem and_2048_ne (x : Nat) : (x &&& 2048 ≠ 0) ↔ x / 2048 % 2 = 1 :=
  and_two_pow_ne 2048 11 x (by norm_num)

theorem and_8192_ne (x : Nat) : (x &&& 8192 ≠ 0) ↔ x / 8192 % 2 = 1 :=
  and_two_pow_ne 8192 13 x (by norm_num)

theorem and_16384_ne (x : Nat) : (x &&& 16384 ≠ 0) ↔ x / 16384 % 2 = 1 :=
  and_two_pow_ne 16384 14 x (by norm_num)

theorem and_32768_ne (x : Nat) : (x &&& 32768 ≠ 0) ↔ x / 32768 % 2 = 1 :=
  and_two_pow_ne 32768 15 x (by norm_num)

/-- Complement of `and_two_pow_ne`: a single-bit mask vanishes exactly when
the bit is clear. -/
theorem and_two_pow_eq (m k x : Nat) (hm : m = 2 ^ k) : (x &&& m = 0) ↔ x / m % 2 = 0 := by
  subst hm
  rw [Nat.and_two_pow, Nat.toNat_testBit]
  have h2 := Nat.two_pow_pos k
  rcases Nat.mod_two_eq_zero_or_one (x / 2 ^ k) with h | h <;> simp [h]

theorem and_8192_eq (x : Nat) : (x &&& 8192 = 0) ↔ x / 8192 % 2 = 0 :=
  and_two_pow_eq 8192 13 x (by norm_num)

theorem and_16384_eq (x : Nat) : (x &&& 16384 = 0) ↔ x / 16384 % 2 = 0 :=
  and_two_pow_eq 16384 14 x (by norm_num)

theorem and_32768_eq (x : Nat) : (x &&& 32768 = 0) ↔ x / 32768 % 2 = 0 :=
  and_two_pow_eq 32768 15 x (by norm_num)

theorem and_1024_eq (x : Nat) : (x &&& 1024 = 0) ↔ x / 1024 % 2 = 0 :=
  and_two_pow_eq 1024 10 x (by norm_num)

theorem and_2048_eq (x : Nat) : (x &&& 2048 = 0) ↔ x / 2048 % 2 = 0 :=
  and_two_pow_eq 2048 11 x (by norm_num)

/-- A guard of the form `if _ % 2 = 1 then m else 0` is multiplication by the
tested bit. -/
theorem ite_mod_two_mul (a m : Nat) : (if a % 2 = 1 then m else 0) = a % 2 * m := by
  rcases Nat.mod_two_eq_zero_or_one a with h | h <;> simp [h]

/-- Variant of `ite_mod_two_mul` with the branches the other way around. -/
theorem ite_mod_two_mul2 (a m : Nat) : (if a % 2 = 0 then 0 else m) = a % 2 * m := by
  rcases Nat.mod_two_eq_zero_or_one a with h | h <;> simp [h]

/-- The boolean single-bit test `x &&& 2 ^ k != 0` recovers a flag that was
stored as bit `k` of `x`. -/
theorem bne_and_eq_bool (m k x : Nat) (b : Bool) (hm : m = 2 ^ k)
    (h : x / m % 2 = b.toNat) : ((x &&& m) != 0) = b := by
  cases b
  · simp only [bne_eq_false_iff_eq, and_two_pow_eq m k x hm]
    simpa using h
  · simp only [bne_iff_ne, ne_eq, and_two_pow_ne m k x hm]
    simpa using h

/-- A guard of the form `if b then m else 0` over a `Bool` is multiplication
by `b.toNat`. -/
theorem ite_bool_mul (b : Bool) (m : Nat) : (if b then m else 0) = b.toNat * m := by
  cases b <;> simp

/-- Assembling the three disjoint 5-bit fields of a packed-555 word is plain
arithmetic. -/
theorem pack555 (r g b : Nat) (hg : g < 32) (hb : b < 32) :
    r * 1024 ||| g * 32 ||| b = r * 1024 + g * 32 + b := by
  rw [lor_eq_add' 1024 (r * 1024) (g * 32) ⟨10, by norm_num⟩ (by omega) (by omega),
    lor_eq_add' 32 (r * 1024 + g * 32) b ⟨5, by norm_num⟩ (by omega) (by omega)]

/-- Assembling the disjoint fields of a Revision A packed-16 word is plain
arithmetic. -/
theorem packA (t p A B C : Nat) (ht : t < 1024) (hp : p < 8) (hA : A ≤ 1) (hB : B ≤ 1)
    (hC : C ≤ 1) :
    t ||| p * 1024 ||| A * 8192 ||| B * 16384 ||| C * 32768 =
      t + p * 1024 + A * 8192 + B * 16384 + C * 32768 := by
  rw [lor_eq_add 1024 t (p * 1024) ⟨10, by norm_num⟩ (by omega) (by omega),
    lor_eq_add 8192 (t + p * 1024) (A * 8192) ⟨13, by norm_num⟩ (by omega) (by omega),
    lor_eq_add 16384 (t + p * 1024 + A * 8192) (B * 16384) ⟨14, by norm_num⟩ (by omega)
      (by omega),
    lor_eq_add 32768 (t + p * 1024 + A * 8192 + B * 16384) (C * 32768) ⟨15, by norm_num⟩
      (by omega) (by omega)]

/-- Assembling the disjoint fields of a Revision B packed-16 word is plain
arithmetic. -/
theorem packB (t A B p : Nat) (ht : t < 1024) (hA : A ≤ 1) (hB : B ≤ 1) (hp : p < 16) :
    t ||| A * 1024 ||| B * 2048 ||| p * 4096 =
      t + A * 1024 + B * 2048 + p * 4096 := by
  rw [lor_eq_add 1024 t (A * 1024) ⟨10, by norm_num⟩ (by omega) (by omega),
    lor_eq_add 2048 (t + A * 1024) (B * 2048) ⟨11, by norm_num⟩ (by omega) (by omega),
    lor_eq_add 4096 (t + A * 1024 + B * 2048) (p * 4096) ⟨12, by norm_num⟩ (by omega)
      (by omega)]

/-- Assembling a 16-bit word from its two bytes is plain arithmetic. -/
theorem packBytes (high low : Nat) (hlow : low < 256) :
    high <<< 8 ||| low = high * 256 + low := by
  rw [Nat.shiftLeft_eq]
  norm_num
  rw [lor_eq_add' 256 (high * 256) low ⟨8, by norm_num⟩ (by omega) (by omega)]

/-! Lemmas about `Color` and the packed-555 codec. -/

/-- Decoding then re-encoding a packed-555 word keeps bits 0-14 and clears
bit 15. -/
theorem to_rgb555_from_rgb555 (w : Nat) : (Color.from_rgb555 w).to_rgb555 = w &&& 0x7FFF := by
  simp only [Color.from_rgb555, Color.to_rgb555, Nat.shiftLeft_eq, Nat.shiftRight_eq_div_pow,
    and_31, and_32767]
  norm_num
  rw [pack555 (w / 1024 % 32) (w / 32 % 32) (w % 32) (by omega) (by omega)]
  omega

/-- Encoding a well-formed color then decoding returns the same color. -/
theorem from_rgb555_to_rgb555 (c : Color) (h : c.wf) : Color.from_rgb555 c.to_rgb555 = c := by
  obtain ⟨r, g, b⟩ := c
  have hr : r < 32 := h.1
  have hg : g < 32 := h.2.1
  have hb : b < 32 := h.2.2
  simp only [Color.to_rgb555, Color.from_rgb555, Nat.shiftLeft_eq, Nat.shiftRight_eq_div_pow,
    and_31]
  norm_num
  rw [pack555 r g b hg hb]
  refine ⟨by omega, by omega, by omega⟩

/-- The packed-555 encoding of a well-formed color fits in 15 bits. -/
theorem to_rgb555_lt (c : Color) (h : c.wf) : c.to_rgb555 < 32768 := by
  obtain ⟨r, g, b⟩ := c
  have hr : r < 32 := h.1
  have hg : g < 32 := h.2.1
  have hb : b < 32 := h.2.2
  simp only [Color.to_rgb555, Nat.shiftLeft_eq]
  norm_num
  rw [pack555 r g b hg hb]
  omega

/-! Lemmas about the two `TilemapEntry` packed-16 layouts. -/

/-- Decoding any 16-bit word with the Revision A layout and re-encoding it
returns the word: the layout assigns a meaning to all 16 bits. -/
theorem to_from_u16 (v : Nat) (hv : v < 65536) : (TilemapEntry.from_u16 v).to_u16 = v := by
  simp only [TilemapEntry.from_u16, TilemapEntry.to_u16, bne_iff_ne,
    and_1023, and_7, Nat.shiftRight_eq_div_pow, Nat.shiftLeft_eq]
  norm_num
  simp only [and_8192_eq, and_16384_eq, and_32768_eq, ite_mod_two_mul2]
  rw [packA (v % 1024) (v / 1024 % 8) (v / 8192 % 2) (v / 16384 % 2) (v / 32768 % 2)
    (by omega) (by omega) (by omega) (by omega) (by omega)]
  omega

/-- A Revision A entry with in-range fields survives the packed-16 round
trip unchanged. -/
theorem fromA_toA (t p : Nat) (hf vf pr : Bool) (ht : t ≤ 1023) (hp : p ≤ 7) :
    TilemapEntry.from_u16 (TilemapEntry.to_u16 ⟨t, hf, vf, pr, p⟩) = ⟨t, hf, vf, pr, p⟩ := by
  have htf := Bool.toNat_le hf
  have htv := Bool.toNat_le vf
  have htp := Bool.toNat_le pr
  simp only [TilemapEntry.to_u16, ite_bool_mul, and_1023, and_7, Nat.shiftLeft_eq]
  norm_num
  rw [packA (t % 1024) (p % 8) hf.toNat vf.toNat pr.toNat (by omega) (by omega) htf htv htp]
  simp only [TilemapEntry.from_u16, and_1023, and_7, Nat.shiftRight_eq_div_pow,
    TilemapEntry.mk.injEq]
  norm_num
  refine ⟨by omega, ?_, ?_, ?_, by omega⟩
  · exact bne_and_eq_bool 8192 13 _ hf (by norm_num) (by omega)
  · exact bne_and_eq_bool 16384 14 _ vf (by norm_num) (by omega)
  · exact bne_and_eq_bool 32768 15 _ pr (by norm_num) (by omega)

/-- A Revision B entry with in-range fields survives the packed-16 round
trip unchanged. -/
theorem fromB_toB (t p : Nat) (hf vf : Bool) (ht : t ≤ 1023) (hp : p ≤ 15) :
    TilemapEntryB.from_u16 (TilemapEntryB.to_u16 ⟨t, hf, vf, p⟩) = ⟨t, hf, vf, p⟩ := by
  have htf := Bool.toNat_le hf
  have htv := Bool.toNat_le vf
  simp only [TilemapEntryB.to_u16, ite_bool_mul, and_1023, and_15, Nat.shiftLeft_eq]
  norm_num
  rw [packB (t % 1024) hf.toNat vf.toNat (p % 16) (by omega) htf htv (by omega)]
  simp only [TilemapEntryB.from_u16, and_1023, and_15, Nat.shiftRight_eq_div_pow,
    TilemapEntryB.mk.injEq]
  norm_num
  refine ⟨by omega, ?_, ?_, by omega⟩
  · exact bne_and_eq_bool 1024 10 _ hf (by norm_num) (by omega)
  · exact bne_and_eq_bool 2048 11 _ vf (by norm_num) (by omega)

/-! Lemmas about the `Tile` planar codec. -/

@[ext] theorem Tile.ext (a b : Tile) (h : ∀ y x, a.pixels y x = b.pixels y x) : a = b := by
  cases a; cases b
  simp only [Tile.mk.injEq]
  funext y x
  exact h y x

set_option maxRecDepth 40000 in
/-- In a plane row byte built by ORing `1 <<< (7 - x)` for the set pixels,
testing bit `7 - j` recovers exactly whether pixel `j` was set — the
contributions of the other seven pixels never touch that bit. -/
theorem orFold_test : ∀ (f : Fin 8 → Bool) (j : Fin 8),
    (((List.finRange 8).foldl (fun acc x => if f x then acc ||| (1 <<< (7 - x.val)) else acc) 0)
      &&& (1 <<< (7 - j.val)) != 0) = f j := by decide

/-- Gathering the four plane bits of a 4-bit color back with ORed 1, 2, 4, 8
reconstructs the color. -/
theorem gather_bits (c : Nat) (h : c < 16) :
    ((if c &&& 1 != 0 then 1 else 0) ||| (if c &&& 2 != 0 then 2 else 0) |||
      (if c &&& 4 != 0 then 4 else 0) ||| (if c &&& 8 != 0 then 8 else 0)) = c := by
  interval_cases c <;> decide

/-- Reading bit `7 - x` of a plane row byte tests the plane's bit of pixel
`(x, y)`. -/
theorem planeByte_test (t : Tile) (m : Nat) (y x : Fin 8) :
    (t.planeByte m y &&& (1 <<< (7 - x.val)) != 0) = (t.pixels y x &&& m != 0) :=
  orFold_test (fun xx => t.pixels y xx &&& m != 0) x

/-! Lemmas about the shared little-endian byte codec. -/

/-- Splitting a 16-bit word into its two bytes and reassembling them
little-endian returns the word. -/
theorem bytes_recombine (w : Nat) (h : w < 65536) :
    (((w >>> 8) &&& 255) <<< 8) ||| (w &&& 255) = w := by
  simp only [Nat.shiftRight_eq_div_pow, Nat.shiftLeft_eq, and_255]
  norm_num
  rw [lor_eq_add' 256 (w / 256 % 256 * 256) (w % 256) ⟨8, by norm_num⟩ (by omega) (by omega)]
  omega

/-- The low byte of an assembled word is the original low byte. -/
theorem word_low (lo hi : Nat) (hlo : lo < 256) : ((hi <<< 8) ||| lo) &&& 255 = lo := by
  rw [packBytes hi lo hlo, and_255]
  omega

/-- The high byte of an assembled word is the original high byte. -/
theorem word_high (lo hi : Nat) (hlo : lo < 256) (hhi : hi < 256) :
    (((hi <<< 8) ||| lo) >>> 8) &&& 255 = hi := by
  rw [packBytes hi lo hlo, Nat.shiftRight_eq_div_pow, and_255]
  norm_num
  omega

/-- A word assembled from two bytes fits in 16 bits. -/
theorem word_lt (lo hi : Nat) (hlo : lo < 256) (hhi : hi < 256) :
    (hi <<< 8) ||| lo < 65536 := by
  rw [packBytes hi lo hlo]
  omega

/-- Serialization emits two bytes per word. -/
theorem wordsToBytes_length (ws : List Nat) : (wordsToBytes ws).length = 2 * ws.length := by
  induction ws with
  | nil => rfl
  | cons w ws ih => simp [wordsToBytes, ih]; omega

/-- Deserialization reads two bytes per word. -/
theorem bytesToWords_length (B : List Nat) : (bytesToWords B).length = B.length / 2 := by
  induction B using bytesToWords.induct with
  | case1 lo hi rest ih => simp [bytesToWords, ih]; omega
  | case2 B h => cases B with
    | nil => rfl
    | cons x xs => cases xs with
      | nil => simp [bytesToWords]
      | cons y ys => exact absurd rfl (by exact fun hh => h x y ys hh)

/-- Deserializing a serialized word list returns the original words. -/
theorem bytesToWords_wordsToBytes (ws : List Nat) (h : ∀ w ∈ ws, w < 65536) :
    bytesToWords (wordsToBytes ws) = ws := by
  induction ws with
  | nil => rfl
  | cons w ws ih =>
    simp only [wordsToBytes, bytesToWords]
    rw [bytes_recombine w (h w (by simp)), ih (fun x hx => h x (by simp [hx]))]

/-- Serializing a deserialized (even-length) byte list returns the original
bytes. -/
theorem wordsToBytes_bytesToWords (B : List Nat) (hlen : B.length % 2 = 0)
    (h : ∀ b ∈ B, b < 256) :
    wordsToBytes (bytesToWords B) = B := by
  induction B using bytesToWords.induct with
  | case1 lo hi rest ih =>
    simp only [bytesToWords, wordsToBytes]
    have hlo : lo < 256 := h lo (by simp)
    have hhi : hi < 256 := h hi (by simp)
    rw [word_low lo hi hlo, word_high lo hi hlo hhi,
      ih (by simp only [List.length_cons] at hlen; omega) (fun x hx => h x (by simp [hx]))]
  | case2 B hB => cases B with
    | nil => rfl
    | cons x xs => cases xs with
      | nil => simp at hlen
      | cons y ys => exact absurd rfl (by exact fun hh => hB x y ys hh)

/-- Words deserialized from bytes fit in 16 bits. -/
theorem bytesToWords_lt (B : List Nat) (h : ∀ b ∈ B, b < 256) :
    ∀ w ∈ bytesToWords B, w < 65536 := by
  induction B using bytesToWords.induct with
  | case1 lo hi rest ih =>
    intro w hw
    simp only [bytesToWords, List.mem_cons] at hw
    rcases hw with rfl | hw
    · exact word_lt lo hi (h lo (by simp)) (h hi (by simp))
    · exact ih (fun x hx => h x (by simp [hx])) w hw
  | case2 B hB => cases B with
    | nil => intro w hw; simp [bytesToWords] at hw
    | cons x xs => cases xs with
      | nil => intro w hw; simp [bytesToWords] at hw
      | cons y ys => exact absurd rfl (by exact fun hh => hB x y ys hh)

/-- Mapping a function that fixes every element of a list is the identity. -/
theorem map_id_of_mem (l : List α) (f : α → α) (h : ∀ a ∈ l, f a = a) : l.map f = l := by
  have h2 : l.map f = l.map id := List.map_congr_left (by simpa using h)
  rw [h2, List.map_id]

/-- Planar encoding followed by decoding reproduces every pixel of a
well-formed tile. -/
theorem from_planar_to_planar (t : Tile) (hwf : t.wf) :
    Tile.from_planar t.to_planar = t := by
  apply Tile.ext
  intro y x
  have hb0 : t.to_planar ⟨y.val, by omega⟩ = t.planeByte 1 y := by
    simp [Tile.to_planar]
  have hb1 : t.to_planar ⟨8 + y.val, by omega⟩ = t.planeByte 2 y := by
    have e1 : ¬ (8 + y.val < 8) := by omega
    have e2 : 8 + y.val < 16 := by omega
    simp [Tile.to_planar, e1, e2]
  have hb2 : t.to_planar ⟨16 + y.val, by omega⟩ = t.planeByte 4 y := by
    have e1 : ¬ (16 + y.val < 8) := by omega
    have e2 : ¬ (16 + y.val < 16) := by omega
    have e3 : 16 + y.val < 24 := by omega
    simp [Tile.to_planar, e1, e2, e3]
  have hb3 : t.to_planar ⟨24 + y.val, by omega⟩ = t.planeByte 8 y := by
    have e1 : ¬ (24 + y.val < 8) := by omega
    have e2 : ¬ (24 + y.val < 16) := by omega
    have e3 : ¬ (24 + y.val < 24) := by omega
    simp [Tile.to_planar, e1, e2, e3]
  simp only [Tile.from_planar]
  rw [hb0, hb1, hb2, hb3, planeByte_test, planeByte_test, planeByte_test, planeByte_test]
  exact gather_bits (t.pixels y x) (hwf y x)

/-! Lemmas about `Tilemap` indexing and resizing. -/

/-- Row-major index of an in-bounds cell is within the grid. -/
theorem rowmajor_lt (x y w h : Nat) (hx : x < w) (hy : y < h) : y * w + x < w * h := by
  calc y * w + x < y * w + w := by omega
    _ = (y + 1) * w := by ring
    _ ≤ h * w := Nat.mul_le_mul_right w hy
    _ = w * h := Nat.mul_comm h w

/-- The column of a row-major index. -/
theorem rowmajor_mod (x y w : Nat) (hx : x < w) : (y * w + x) % w = x := by
  rw [Nat.mul_comm, Nat.mul_add_mod]
  exact Nat.mod_eq_of_lt hx

/-- The row of a row-major index. -/
theorem rowmajor_div (x y w : Nat) (hx : x < w) : (y * w + x) / w = y := by
  rw [Nat.mul_comm, Nat.mul_add_div (by omega)]
  have h2 : x / w = 0 := Nat.div_eq_of_lt hx
  omega

/-- In-bounds lookup in a well-formed tilemap succeeds and returns the
row-major entry. -/
theorem get_entry_some (m : Tilemap) (hwf : m.wf) (x y : Nat) (hx : x < m.width)
    (hy : y < m.height) :
    m.get_entry x y = some (m.entries.getD (y * m.width + x) TilemapEntry.defaultEntry) := by
  have hidx : y * m.width + x < m.entries.length := by
    rw [hwf]
    exact rowmajor_lt x y _ _ hx hy
  simp [Tilemap.get_entry, if_pos (And.intro hx hy), List.getElem?_eq_getElem hidx,
    List.getD_eq_getElem?_getD]

/-- Cell contents of a freshly resized grid (the non-no-op case): copied from
the old grid where the coordinates were in the old bounds, default
elsewhere. -/
theorem resize_entry (m : Tilemap) (nw nh : Nat)
    (hne : ¬ (clampDim nw = m.width ∧ clampDim nh = m.height)) (x y : Nat)
    (hx : x < clampDim nw) (hy : y < clampDim nh) :
    (m.resize nw nh).get_entry x y =
      some (if x < m.width ∧ y < m.height
        then m.entries.getD (y * m.width + x) TilemapEntry.defaultEntry
        else TilemapEntry.defaultEntry) := by
  simp only [Tilemap.resize, Tilemap.get_entry, hne, if_false]
  have hlt : y * clampDim nw + x < clampDim nw * clampDim nh := rowmajor_lt x y _ _ hx hy
  simp only [if_pos (And.intro hx hy), List.getElem?_map, List.getElem?_range hlt,
    Option.map_some']
  rw [rowmajor_mod x y _ hx, rowmajor_div x y _ hx]
  by_cases hin : x < m.width ∧ y < m.height
  · have hmin : x < min m.width (clampDim nw) ∧ y < min m.height (clampDim nh) := by
      constructor <;> [exact lt_min hin.1 hx; exact lt_min hin.2 hy]
    simp [hmin, hin]
  · have hmin : ¬ (x < min m.width (clampDim nw) ∧ y < min m.height (clampDim nh)) := by
      rcases not_and_or.mp hin with h | h
      · exact fun hc => h (lt_of_lt_of_le hc.1 (min_le_left _ _))
      · exact fun hc => h (lt_of_lt_of_le hc.2 (min_le_left _ _))
    simp [hmin, hin]
    intro h1 h2 h3 h4
    exact absurd ⟨h1, h3⟩ hin

/-! The claim theorems.  Each `cN_...` theorem settles claim CN of the
specification; `cN_witness` instantiates it at a concrete input, and
`cN_counterexample` (where present) refutes the claim in its original
wording. -/

set_option maxRecDepth 20000 in
/-- Claim C1, counterexample: the buffer direction of the inverse claim
fails.  `c1_buf` is a 512-byte buffer (so import succeeds), yet exporting
the imported palette does not reproduce it: byte 1 holds 0x80, whose bit —
bit 15 of the first color word — is discarded by `from_rgb555`. -/
theorem c1_counterexample :
    (Palette.import_binary c1_buf).map Palette.export_binary ≠ some c1_buf ∧
    (Palette.import_binary c1_buf).isSome := by decide

/-- Claim C1, amended: palette import succeeds on every 512-byte buffer and
re-exports it byte-for-byte provided bit 15 of every 16-bit word of the
buffer is clear (the counterexample shows the restriction is necessary);
and import is a left inverse of export on every well-formed palette. -/
theorem c1_roundtrip :
    (∀ B : List Nat, B.length = 512 → (∀ b ∈ B, b < 256) →
      (∀ w ∈ bytesToWords B, w < 32768) →
      ∃ P, Palette.import_binary B = some P ∧ P.export_binary = B) ∧
    (∀ P : Palette, P.wf → Palette.import_binary P.export_binary = some P) := by
  constructor
  · intro B hlen hB hw
    refine ⟨⟨(bytesToWords B).map Color.from_rgb555⟩, by simp [Palette.import_binary, hlen], ?_⟩
    simp only [Palette.export_binary, List.map_map]
    have h1 : (bytesToWords B).map (Color.to_rgb555 ∘ Color.from_rgb555) = bytesToWords B := by
      apply map_id_of_mem
      intro w hww
      have h2 := to_rgb555_from_rgb555 w
      rw [and_32767] at h2
      simp only [Function.comp_apply, h2]
      exact Nat.mod_eq_of_lt (hw w hww)
    rw [h1]
    exact wordsToBytes_bytesToWords B (by omega) hB
  · intro P hP
    obtain ⟨colors⟩ := P
    have h256 : colors.length = 256 := hP.1
    have hcwf : ∀ c ∈ colors, c.wf := hP.2
    have hwlt : ∀ w ∈ colors.map Color.to_rgb555, w < 65536 := by
      intro w hww
      obtain ⟨c, hc, rfl⟩ := List.mem_map.mp hww
      have := to_rgb555_lt c (hcwf c hc)
      omega
    have hlen : (wordsToBytes (colors.map Color.to_rgb555)).length = 512 := by
      rw [wordsToBytes_length, List.length_map, h256]
    simp only [Palette.export_binary, Palette.import_binary]
    rw [if_pos hlen, bytesToWords_wordsToBytes _ hwlt, List.map_map]
    simp only [Option.some.injEq, Palette.mk.injEq]
    apply map_id_of_mem
    intro c hc
    exact from_rgb555_to_rgb555 c (hcwf c hc)

set_option maxRecDepth 20000 in
/-- Claim C1, witness: the amended round trips evaluated on the all-zero
buffer and on the default palette. -/
theorem c1_witness :
    (∃ P, Palette.import_binary (List.replicate 512 0) = some P ∧
      P.export_binary = List.replicate 512 0) ∧
    Palette.import_binary Palette.new.export_binary = some Palette.new := by
  constructor
  · exact c1_roundtrip.1 (List.replicate 512 0) (by simp) (by simp) (by decide)
  · exact c1_roundtrip.2 Palette.new (by decide)

/-- Claim C2: both TilemapEntry format revisions round-trip exactly through
their packed-16 encodings for every in-range tile index (hence in particular
0, 511 and 1023), palette index and flag combination.  Revision A comes from
tilemap.rs; Revision B is modelled from the spec, its core code not being
under src/. -/
theorem c2_roundtrip (t p : Nat) (hf vf pr : Bool) :
    (t ≤ 1023 → p ≤ 7 →
      TilemapEntry.from_u16 (TilemapEntry.to_u16 ⟨t, hf, vf, pr, p⟩) = ⟨t, hf, vf, pr, p⟩) ∧
    (t ≤ 1023 → p ≤ 15 →
      TilemapEntryB.from_u16 (TilemapEntryB.to_u16 ⟨t, hf, vf, p⟩) = ⟨t, hf, vf, p⟩) :=
  ⟨fun ht hp => fromA_toA t p hf vf pr ht hp, fun ht hp => fromB_toB t p hf vf ht hp⟩

/-- Claim C2, witness: both round trips evaluated at concrete entries. -/
theorem c2_witness :
    TilemapEntry.from_u16 (TilemapEntry.to_u16 ⟨511, true, false, true, 7⟩) =
      ⟨511, true, false, true, 7⟩ ∧
    TilemapEntryB.from_u16 (TilemapEntryB.to_u16 ⟨1023, true, false, 15⟩) =
      ⟨1023, true, false, 15⟩ :=
  ⟨(c2_roundtrip 511 7 true false true).1 (by decide) (by decide),
   (c2_roundtrip 1023 15 true false true).2 (by decide) (by decide)⟩

/-- Claim C3: for every tile whose 64 pixels hold 4-bit color indices,
planar encoding followed by decoding reproduces the tile exactly. -/
theorem c3_roundtrip (t : Tile) (hwf : t.wf) : Tile.from_planar t.to_planar = t :=
  from_planar_to_planar t hwf

/-- Claim C3, witness: the planar round trip evaluated on the empty tile. -/
theorem c3_witness : Tile.wf Tile.new ∧ Tile.from_planar Tile.new.to_planar = Tile.new :=
  ⟨by decide, c3_roundtrip Tile.new (by decide)⟩

/-- Claim C4: no modelled operation reaches an out-of-bounds array access or
fails on out-of-range input.  Clamping (`Color::new`, `TilemapEntry::new`,
`Tilemap::new`) and wrapping (`Palette` indices) keep every internally
computed index within its array for well-formed values; out-of-range tilemap
access is an absent result or a no-op, never a panic; and the only fallible
operation on `Palette` is `import_binary`, failing exactly on a length
mismatch (its `Tilemap` counterpart is claim C7). -/
theorem c4_no_panic :
    (∀ r g b : Nat, (Color.new r g b).wf) ∧
    (∀ (p : Palette) (pi ci : Nat), p.wf → (p.get_color pi ci).isSome) ∧
    (∀ (p : Palette) (pi ci : Nat) (c : Color), p.wf → c.wf → (p.set_color pi ci c).wf) ∧
    (∀ (m : Tilemap) (x y : Nat), m.wf → x < m.width → y < m.height →
      (m.get_entry x y).isSome) ∧
    (∀ (m : Tilemap) (x y : Nat), m.width ≤ x ∨ m.height ≤ y → m.get_entry x y = none) ∧
    (∀ (m : Tilemap) (x y : Nat) (e : TilemapEntry), m.wf → (m.set_entry x y e).wf) ∧
    (∀ (t p : Nat) (hf vf pr : Bool), (TilemapEntry.new t p hf vf pr).tile_index ≤ 1023 ∧
      (TilemapEntry.new t p hf vf pr).palette_idx ≤ 7) ∧
    (∀ w h : Nat, (Tilemap.new w h).wf ∧ 1 ≤ (Tilemap.new w h).width ∧
      (Tilemap.new w h).width ≤ 256 ∧ 1 ≤ (Tilemap.new w h).height ∧
      (Tilemap.new w h).height ≤ 256) ∧
    (∀ (m : Tilemap) (e : TilemapEntry), m.wf → (m.fill e).wf ∧ m.clear.wf) ∧
    (∀ data : List Nat, (Palette.import_binary data).isSome ↔ data.length = 512) := by
  refine ⟨?_, ?_, ?_, ?_, ?_, ?_, ?_, ?_, ?_, ?_⟩
  · intro r g b
    refine ⟨?_, ?_, ?_⟩ <;> simp [Color.new] <;> omega
  · intro p pi ci hp
    have hidx : (pi % 16) * 16 + ci % 16 < p.colors.length := by
      have h1 : pi % 16 < 16 := Nat.mod_lt _ (by omega)
      have h2 : ci % 16 < 16 := Nat.mod_lt _ (by omega)
      rw [hp.1]
      omega
    simp [Palette.get_color, List.getElem?_eq_getElem hidx]
  · intro p pi ci c hp hc
    refine ⟨by simp [Palette.set_color, hp.1], ?_⟩
    intro d hd
    rcases List.mem_or_eq_of_mem_set hd with h | rfl
    · exact hp.2 d h
    · exact hc
  · intro m x y hm hx hy
    have hidx : y * m.width + x < m.entries.length := by
      rw [hm]
      exact rowmajor_lt x y _ _ hx hy
    simp [Tilemap.get_entry, if_pos (And.intro hx hy), List.getElem?_eq_getElem hidx]
  · intro m x y hxy
    have : ¬ (x < m.width ∧ y < m.height) := by omega
    simp [Tilemap.get_entry, this]
  · intro m x y e hm
    unfold Tilemap.set_entry
    by_cases h : x < m.width ∧ y < m.height <;> simp [h, Tilemap.wf, hm] <;> exact hm
  · intro t p hf vf pr
    constructor <;> simp [TilemapEntry.new] <;> omega
  · intro w h
    refine ⟨by simp [Tilemap.new, Tilemap.wf], ?_, ?_, ?_, ?_⟩ <;>
      simp [Tilemap.new, clampDim] <;> omega
  · intro m e hm
    constructor <;> simp [Tilemap.fill, Tilemap.clear, Tilemap.wf] <;> exact hm
  · intro data
    unfold Palette.import_binary
    by_cases h : data.length = 512 <;> simp [h]

set_option maxRecDepth 20000 in
/-- Claim C4, witness: the safety conjuncts evaluated at concrete
out-of-range inputs. -/
theorem c4_witness :
    (Color.new 40 1 2).wf ∧ (Palette.new.get_color 18 20).isSome ∧
    (Palette.new.set_color 0 0 (Color.new 1 2 3)).wf ∧
    ((Tilemap.new 4 4).get_entry 3 3).isSome ∧ (Tilemap.new 4 4).get_entry 4 0 = none ∧
    ((Tilemap.new 4 4).set_entry 0 0 (TilemapEntry.new 1 1 true false true)).wf ∧
    ((TilemapEntry.new 2000 20 false false false).tile_index ≤ 1023 ∧
      (TilemapEntry.new 2000 20 false false false).palette_idx ≤ 7) ∧
    ((Tilemap.new 300 0).wf ∧ 1 ≤ (Tilemap.new 300 0).width ∧
      (Tilemap.new 300 0).width ≤ 256 ∧ 1 ≤ (Tilemap.new 300 0).height ∧
      (Tilemap.new 300 0).height ≤ 256) ∧
    ((Tilemap.new 2 2).fill (TilemapEntry.new 1 1 true false true)).wf ∧
    (Palette.import_binary [0, 0]).isSome = false := by
  refine ⟨c4_no_panic.1 40 1 2, c4_no_panic.2.1 Palette.new 18 20 (by decide),
    c4_no_panic.2.2.1 Palette.new 0 0 (Color.new 1 2 3) (by decide) (by decide),
    c4_no_panic.2.2.2.1 (Tilemap.new 4 4) 3 3 (by decide) (by decide) (by decide),
    c4_no_panic.2.2.2.2.1 (Tilemap.new 4 4) 4 0 (by decide),
    c4_no_panic.2.2.2.2.2.1 (Tilemap.new 4 4) 0 0 (TilemapEntry.new 1 1 true false true)
      (by decide),
    c4_no_panic.2.2.2.2.2.2.1 2000 20 false false false,
    c4_no_panic.2.2.2.2.2.2.2.1 300 0,
    ((c4_no_panic.2.2.2.2.2.2.2.2.1 (Tilemap.new 2 2) (TilemapEntry.new 1 1 true false true)
      (by decide)).1),
    by
      rw [Bool.eq_false_iff]
      intro hs
      have h2 := (c4_no_panic.2.2.2.2.2.2.2.2.2 [0, 0]).mp hs
      simp at h2⟩

/-- Claim C5: `resize` clamps both dimensions into [1, 256]; it is a no-op
when the clamped dimensions equal the current ones; otherwise every entry
within both the old and the new bounds (`min` on each axis) is preserved,
cells newly in bounds hold the default entry, and coordinates outside the
new bounds read as absent. -/
theorem c5_resize (m : Tilemap) (nw nh : Nat) (hwf : m.wf) :
    (1 ≤ clampDim nw ∧ clampDim nw ≤ 256 ∧ 1 ≤ clampDim nh ∧ clampDim nh ≤ 256) ∧
    ((m.resize nw nh).width = clampDim nw ∧ (m.resize nw nh).height = clampDim nh) ∧
    (m.resize nw nh).wf ∧
    (clampDim nw = m.width ∧ clampDim nh = m.height → m.resize nw nh = m) ∧
    (∀ x y, x < min m.width (clampDim nw) → y < min m.height (clampDim nh) →
      (m.resize nw nh).get_entry x y = m.get_entry x y) ∧
    (∀ x y, x < clampDim nw → y < clampDim nh → m.width ≤ x ∨ m.height ≤ y →
      (m.resize nw nh).get_entry x y = some TilemapEntry.defaultEntry) ∧
    (∀ x y, clampDim nw ≤ x ∨ clampDim nh ≤ y → (m.resize nw nh).get_entry x y = none) := by
  have hcl : ∀ n : Nat, 1 ≤ clampDim n ∧ clampDim n ≤ 256 := by
    intro n
    unfold clampDim
    omega
  by_cases hc : clampDim nw = m.width ∧ clampDim nh = m.height
  · have hR : m.resize nw nh = m := by simp [Tilemap.resize, hc]
    refine ⟨⟨(hcl nw).1, (hcl nw).2, (hcl nh).1, (hcl nh).2⟩, ?_, ?_, fun _ => hR, ?_, ?_, ?_⟩
    · rw [hR, ← hc.1, ← hc.2]
      exact ⟨rfl, rfl⟩
    · rw [hR]
      exact hwf
    · intro x y hx hy
      rw [hR]
    · intro x y hx hy hor
      rw [hc.1] at hx
      rw [hc.2] at hy
      omega
    · intro x y hor
      rw [hR, Tilemap.get_entry, if_neg (by omega)]
  · refine ⟨⟨(hcl nw).1, (hcl nw).2, (hcl nh).1, (hcl nh).2⟩, ?_, ?_, fun h => absurd h hc,
      ?_, ?_, ?_⟩
    · simp [Tilemap.resize, hc]
    · simp [Tilemap.resize, hc, Tilemap.wf]
    · intro x y hx hy
      have hx1 : x < m.width := lt_of_lt_of_le hx (min_le_left _ _)
      have hx2 : x < clampDim nw := lt_of_lt_of_le hx (min_le_right _ _)
      have hy1 : y < m.height := lt_of_lt_of_le hy (min_le_left _ _)
      have hy2 : y < clampDim nh := lt_of_lt_of_le hy (min_le_right _ _)
      rw [resize_entry m nw nh hc x y hx2 hy2, if_pos ⟨hx1, hy1⟩,
        get_entry_some m hwf x y hx1 hy1]
    · intro x y hx hy hor
      rw [resize_entry m nw nh hc x y hx hy, if_neg (by omega)]
    · intro x y hor
      have hw : (m.resize nw nh).width = clampDim nw := by simp [Tilemap.resize, hc]
      have hh : (m.resize nw nh).height = clampDim nh := by simp [Tilemap.resize, hc]
      rw [Tilemap.get_entry, if_neg (by rw [hw, hh]; omega)]

/-- Claim C5, witness: growing 4×4 to 8×8 keeps cell (2, 2); shrinking 10×10
to 5×5 makes cell (8, 8) absent. -/
theorem c5_witness :
    ((Tilemap.new 4 4).resize 8 8).get_entry 2 2 = (Tilemap.new 4 4).get_entry 2 2 ∧
    ((Tilemap.new 10 10).resize 5 5).get_entry 8 8 = none := by
  constructor
  · exact (c5_resize (Tilemap.new 4 4) 8 8 (by decide)).2.2.2.2.1 2 2 (by decide) (by decide)
  · exact (c5_resize (Tilemap.new 10 10) 5 5 (by decide)).2.2.2.2.2.2 8 8 (by decide)

/-- Claim C6, counterexample: the claim's color bound reads `color < 15`,
but the code accepts `color < 16`: writing color 15 at (0, 0) is not a
no-op even though 15 violates the claimed bound. -/
theorem c6_counterexample :
    Tile.get_pixel (Tile.set_pixel Tile.new 0 0 15) 0 0 = 15 ∧
    Tile.set_pixel Tile.new 0 0 15 ≠ Tile.new ∧ ¬ (15 : Nat) < 15 := by decide

/-- Claim C6, amended: with the color bound corrected to `color < 16`,
`set_pixel` is a silent no-op on any bound violation and `get_pixel`
returns 0 out of bounds. -/
theorem c6_bounds (t : Tile) (x y color : Nat) :
    ((8 ≤ x ∨ 8 ≤ y ∨ 16 ≤ color) → t.set_pixel x y color = t) ∧
    ((8 ≤ x ∨ 8 ≤ y) → t.get_pixel x y = 0) := by
  constructor
  · intro h
    rw [Tile.set_pixel, if_neg (by omega)]
  · intro h
    rw [Tile.get_pixel, dif_neg (by omega)]

/-- Claim C6, witness: out-of-bounds writes and reads on the empty tile, and
an out-of-range color write. -/
theorem c6_witness :
    (Tile.set_pixel Tile.new 8 0 5 = Tile.new ∧ Tile.get_pixel Tile.new 8 0 = 0) ∧
    (Tile.set_pixel Tile.new 0 0 16 = Tile.new) :=
  ⟨⟨(c6_bounds Tile.new 8 0 5).1 (by omega), (c6_bounds Tile.new 8 0 0).2 (by omega)⟩,
   (c6_bounds Tile.new 0 0 16).1 (by omega)⟩

/-- Claim C7, counterexample: the length check compares against the clamped
dimensions, not the caller-supplied ones — importing 2 bytes with declared
dimensions 0×1 succeeds although 2 differs from 0 * 1 * 2. -/
theorem c7_counterexample :
    (Tilemap.import_binary [0, 0] 0 1).isSome ∧ ([0, 0] : List Nat).length ≠ 0 * 1 * 2 := by
  decide

/-- Claim C7, amended: a buffer whose length differs from
`width * height * 2` for the clamped dimensions always yields an absent
result and no partial tilemap. -/
theorem c7_length_check (data : List Nat) (w h : Nat)
    (hlen : data.length ≠ clampDim w * clampDim h * 2) :
    Tilemap.import_binary data w h = none := by
  rw [Tilemap.import_binary, if_neg hlen]

/-- Claim C7, witness: a 3-byte buffer for a 1×1 tilemap is rejected. -/
theorem c7_witness : Tilemap.import_binary [0, 0, 0] 1 1 = none :=
  c7_length_check [0, 0, 0] 1 1 (by decide)

/-- Claim C8: for 8-bit channel inputs, `from_rgb888` followed by the
555 round trip is a stable fixed point — the first conversion is the only
lossy step, and repeating the round trip changes nothing. -/
theorem c8_stable (r g b : Nat) (hr : r < 256) (hg : g < 256) (hb : b < 256) :
    Color.from_rgb555 (Color.from_rgb888 r g b).to_rgb555 = Color.from_rgb888 r g b ∧
    Color.from_rgb555 (Color.from_rgb555 (Color.from_rgb888 r g b).to_rgb555).to_rgb555 =
      Color.from_rgb555 (Color.from_rgb888 r g b).to_rgb555 := by
  have hwf : (Color.from_rgb888 r g b).wf := by
    refine ⟨?_, ?_, ?_⟩ <;> simp [Color.from_rgb888, Nat.shiftRight_eq_div_pow] <;> omega
  have h := from_rgb555_to_rgb555 (Color.from_rgb888 r g b) hwf
  exact ⟨h, by rw [h, h]⟩

/-- Claim C8, witness: the stable fixed point evaluated at (255, 128, 64). -/
theorem c8_witness :
    Color.from_rgb555 (Color.from_rgb888 255 128 64).to_rgb555 = Color.from_rgb888 255 128 64 ∧
    Color.from_rgb555 (Color.from_rgb555 (Color.from_rgb888 255 128 64).to_rgb555).to_rgb555 =
      Color.from_rgb555 (Color.from_rgb888 255 128 64).to_rgb555 :=
  c8_stable 255 128 64 (by decide) (by decide) (by decide)

/-- Claim C9: for in-range dimensions and a buffer of exactly
`width * height * 2` bytes, tilemap import succeeds and re-exporting is the
identity on the buffer, because the Revision A layout gives meaning to all
16 bits of each word. -/
theorem c9_tilemap_codec (w h : Nat) (hw1 : 1 ≤ w) (hw2 : w ≤ 256) (hh1 : 1 ≤ h)
    (hh2 : h ≤ 256) (B : List Nat) (hlen : B.length = w * h * 2) (hB : ∀ b ∈ B, b < 256) :
    ∃ m, Tilemap.import_binary B w h = some m ∧ m.export_binary = B := by
  have hcw : clampDim w = w := by unfold clampDim; omega
  have hch : clampDim h = h := by unfold clampDim; omega
  refine ⟨⟨w, h, (bytesToWords B).map TilemapEntry.from_u16⟩, ?_, ?_⟩
  · rw [Tilemap.import_binary, hcw, hch, if_pos hlen]
  · simp only [Tilemap.export_binary, List.map_map]
    have h1 : (bytesToWords B).map (TilemapEntry.to_u16 ∘ TilemapEntry.from_u16) =
        bytesToWords B := by
      apply map_id_of_mem
      intro v hv
      exact to_from_u16 v (bytesToWords_lt B hB v hv)
    rw [h1]
    exact wordsToBytes_bytesToWords B (by omega) hB

/-- Claim C9, witness: the 2-byte buffer 0xFF07 imported as a 1×1 tilemap
and re-exported. -/
theorem c9_witness :
    ∃ m, Tilemap.import_binary [7, 255] 1 1 = some m ∧ m.export_binary = [7, 255] :=
  c9_tilemap_codec 1 1 (by decide) (by decide) (by decide) (by decide) [7, 255] (by decide)
    (by decide)

/-- Claim C10: decoding any 16-bit word as a color and re-encoding preserves
bits 0-14 exactly and clears bit 15. -/
theorem c10_bit15 (w : Nat) (hw : w < 65536) :
    (Color.from_rgb555 w).to_rgb555 = w &&& 0x7FFF :=
  to_rgb555_from_rgb555 w

/-- Claim C10, witness: the round trip evaluated on a word with bit 15
set. -/
theorem c10_witness : (Color.from_rgb555 0x8123).to_rgb555 = 0x8123 &&& 0x7FFF :=
  c10_bit15 0x8123 (by decide)

end Semitile
